import Mathlib

/-!
Shallow embedding of the gperf GCC tracing plugin core
(`src/tracking.cpp`, `src/perf_output.cpp`).

Modelling conventions:
* `int64_t` nanosecond timestamps are modelled as `Int` (no overflow occurs in
  the tracked ranges, so plain integers are faithful).
* The monotonic clock `ns_from_start()` is modelled as a function
  `clock : Nat -> Int` together with a read counter `tick` in the state; each
  call to `ns_from_start()` consumes one reading.
* `std::unordered_map` is modelled as an association list in insertion order
  (the code only ever inserts a key that is absent, so lookups are
  order-independent); `std::unordered_set` as a duplicate-free list.
* The C++ `TimeSpan` field `end` is a Lean keyword, so it is named `stop` here.
* `cpp_reader` / `realpath` interaction is out of the core (spec section 1);
  it is abstracted as the two optional `realpath` results the code consumes.
-/

namespace GccTrace

/-- Embeds `TimeSpan` from `comm.h`: `start`/`end` nanosecond offsets
(`stop` stands for the C++ field `end`). -/
structure TimeSpan where
  start : Int
  stop : Int
deriving Repr, DecidableEq

/-- Embeds the `EventCategory` enumeration from `comm.h`. -/
inductive EventCategory
  | TU
  | PREPROCESS
  | FUNCTION
  | STRUCT
  | NAMESPACE
  | GIMPLE_PASS
  | RTL_PASS
  | SIMPLE_IPA_PASS
  | IPA_PASS
  | UNKNOWN
deriving Repr, DecidableEq

/-- Embeds `opt_pass_type` from GCC's `tree-pass.h` (the four pass kinds the
plugin distinguishes). -/
inductive OptPassType
  | GIMPLE
  | RTL
  | SIMPLE_IPA
  | IPA
deriving Repr, DecidableEq

/-- The fields of GCC's `opt_pass` that `tracking.cpp` reads
(`name`, `type`, `static_pass_number`). -/
structure OptPass where
  name : String
  ptype : OptPassType
  static_pass_number : Int
deriving Repr, DecidableEq

/-- Embeds `pass_type` from `tracking.cpp`. -/
def pass_type : OptPassType → EventCategory
  | .GIMPLE => .GIMPLE_PASS
  | .RTL => .RTL_PASS
  | .SIMPLE_IPA => .SIMPLE_IPA_PASS
  | .IPA => .IPA_PASS

/-- Embeds `OptPassEvent` from `tracking.cpp`. -/
structure OptPassEvent where
  pass : OptPass
  ts : TimeSpan
deriving Repr, DecidableEq

/-- The global `last_pass` cell: the C++ `OptPassEvent` whose `pass` pointer
may still be null, so the pass is an `Option` here. -/
structure LastPass where
  pass : Option OptPass
  ts : TimeSpan
deriving Repr, DecidableEq

/-- Embeds `ScopeEvent` from `tracking.cpp`. -/
structure ScopeEvent where
  name : String
  type : EventCategory
  ts : TimeSpan
deriving Repr, DecidableEq

/-- Embeds `FunctionEvent` from `tracking.cpp`. -/
structure FunctionEvent where
  name : String
  file_name : String
  ts : TimeSpan
deriving Repr, DecidableEq

/-- Embeds `TraceEvent` from `comm.h` (the `args` map as an ordered list of
key/value pairs). -/
structure TraceEvent where
  name : String
  category : EventCategory
  ts : TimeSpan
  args : Option (List (String × String))
deriving Repr, DecidableEq

/-- Embeds `FinishedFunction` from `comm.h`; the opaque `decl` pointer is
never read by the tracking core and is omitted. -/
structure FinishedFunction where
  name : String
  file_name : String
  scope_name : Option String
  scope_type : EventCategory
deriving Repr, DecidableEq

/-- The `realpath` data `start_preprocess_file` extracts from a non-null
`cpp_reader`: `dir->name` and the two `realpath` results. -/
structure PFileInfo where
  dir_name : String
  real_dir_name : Option String
  real_file_name : Option String
deriving Repr, DecidableEq

/-- Embeds `CIRCULAR_POISON_VALUE` from `tracking.cpp`. -/
def CIRCULAR_POISON_VALUE : String := "CIRCULAR_POISON_VALUE"

/-- `std::string::starts_with`, character-wise (the registered paths are
ASCII, where C++ bytes and Lean characters coincide). -/
def strStartsWith (s p : String) : Bool := p.data.isPrefixOf s.data

/-- `std::string::substr(n)` on ASCII strings: drop the first `n`
characters. -/
def strDrop (s : String) (n : Nat) : String := ⟨s.data.drop n⟩

/-- The whole mutable state of `tracking.cpp` (file-scope globals plus the
function-local static `did_last_function_have_scope`), together with the
clock read counter `tick`. -/
structure TrackState where
  preprocess_start : List (String × Int)
  preprocess_end : List (String × Int)
  preprocessing_stack : List String
  last_function_parsed_ts : Int
  last_pass : LastPass
  pass_events : List OptPassEvent
  file_to_include_directory : List (String × String)
  normalized_files_map : List (String × String)
  normalized_files : List String
  conflicted_files : List String
  scope_events : List ScopeEvent
  function_events : List FunctionEvent
  did_last_function_have_scope : Bool
  tick : Nat
deriving Repr, DecidableEq

/-- The state at plugin initialization: every container empty, counters zero
(`last_pass` is a zero-initialized file-scope global, so its pass pointer is
null and its span is `{0, 0}`). -/
def initState : TrackState where
  preprocess_start := []
  preprocess_end := []
  preprocessing_stack := []
  last_function_parsed_ts := 0
  last_pass := ⟨none, ⟨0, 0⟩⟩
  pass_events := []
  file_to_include_directory := []
  normalized_files_map := []
  normalized_files := []
  conflicted_files := []
  scope_events := []
  function_events := []
  did_last_function_have_scope := false
  tick := 0

/-- One call of `ns_from_start()`: read the next clock value, advance the
read counter. -/
def tickNow (clock : Nat → Int) (st : TrackState) : Int × TrackState :=
  (clock st.tick, { st with tick := st.tick + 1 })

/-- Set insertion for the `set_t` globals (`std::unordered_set::insert` is a
no-op on an already-present element). -/
def insertSet (s : List String) (x : String) : List String :=
  if x ∈ s then s else s ++ [x]

/-- Embeds `register_include_location` from `tracking.cpp`.
Note: when `file_name = dir_name` the C++ `substr(size + 1)` would throw
`std::out_of_range`; no caller reaches that case and `String.drop` simply
returns the empty string here. -/
def register_include_location (st : TrackState) (file_name dir_name : String) :
    TrackState :=
  if (st.file_to_include_directory.lookup file_name).isSome then st
  else
    let st := { st with
      file_to_include_directory :=
        st.file_to_include_directory ++ [(file_name, dir_name)] }
    if strStartsWith file_name dir_name then
      let normalized_file := strDrop file_name (dir_name.length + 1)
      let st := { st with
        normalized_files_map := st.normalized_files_map ++ [(file_name, normalized_file)] }
      if normalized_file ∈ st.normalized_files then
        { st with conflicted_files := insertSet st.conflicted_files normalized_file }
      else
        { st with normalized_files := insertSet st.normalized_files normalized_file }
    else
      -- path format mismatch: only a warning is printed, no state change
      st

/-- Embeds `normalized_file_name` from `tracking.cpp`.  The C++ body only
reads the two containers (its `operator[]` uses are guarded by `contains`),
so the pure reading embedding is faithful. -/
def normalized_file_name (st : TrackState) (file_name : String) : String :=
  match st.normalized_files_map.lookup file_name with
  | some n => if n ∈ st.conflicted_files then file_name else n
  | none => file_name

/-- Embeds `start_preprocess_file` from `tracking.cpp`; `file_name` is a
nullable `const char*`, hence an `Option`. -/
def start_preprocess_file (clock : Nat → Int) (file_name : Option String)
    (pfile : Option PFileInfo) (st : TrackState) : TrackState :=
  let (now, st) := tickNow clock st
  match file_name with
  | none => st
  | some fname0 =>
    if fname0 = "<command-line>" then st
    else
      let circular := (st.preprocess_start.lookup fname0).isSome &&
        (st.preprocess_end.lookup fname0).isNone
      let fname := if circular then CIRCULAR_POISON_VALUE else fname0
      let pfile := if circular then none else pfile
      let st :=
        if (st.preprocess_start.lookup fname).isSome then st
        else { st with preprocess_start := st.preprocess_start ++ [(fname, now)] }
      let st := { st with preprocessing_stack := fname :: st.preprocessing_stack }
      match pfile with
      | none => st
      | some pi =>
        match pi.real_dir_name, pi.real_file_name with
        | some real_dir, some real_file => register_include_location st real_file real_dir
        | _, _ => st

/-- Embeds `end_preprocess_file` from `tracking.cpp`.  Calling it on an empty
stack is a contract violation in the host (`top`/`pop` on an empty
`std::stack`); modelled as leaving the state unchanged apart from the clock
read that the C++ performs first. -/
def end_preprocess_file (clock : Nat → Int) (st : TrackState) : TrackState :=
  let (now, st) := tickNow clock st
  match st.preprocessing_stack with
  | [] => st
  | top :: rest =>
    let st :=
      if (st.preprocess_end.lookup top).isSome then st
      else { st with preprocess_end := st.preprocess_end ++ [(top, now)] }
    { st with preprocessing_stack := rest, last_function_parsed_ts := now + 3 }

/-- One iteration bound for the `while` loop of `finish_preprocessing_stage`:
each pass through the loop pops exactly one stack entry, so the stack length
is enough fuel. -/
def finish_aux (clock : Nat → Int) : Nat → TrackState → TrackState
  | 0, st => st
  | n + 1, st =>
    if st.preprocessing_stack.isEmpty then st
    else
      let st := end_preprocess_file clock st
      let (now, st) := tickNow clock st
      finish_aux clock n { st with last_function_parsed_ts := now }

/-- Embeds `finish_preprocessing_stage` from `tracking.cpp`. -/
def finish_preprocessing_stage (clock : Nat → Int) (st : TrackState) : TrackState :=
  finish_aux clock st.preprocessing_stack.length st

/-- Embeds `start_opt_pass` from `tracking.cpp`. -/
def start_opt_pass (clock : Nat → Int) (pass : OptPass) (st : TrackState) :
    TrackState :=
  let (now, st) := tickNow clock st
  let closed : TimeSpan := { st.last_pass.ts with stop := now }
  let st :=
    match st.last_pass.pass with
    | some p => { st with pass_events := st.pass_events ++ [OptPassEvent.mk p closed] }
    | none => st
  { st with last_pass := ⟨some pass, { start := now + 1, stop := now }⟩ }

/-- Embeds `end_parse_function` from `tracking.cpp`. -/
def end_parse_function (clock : Nat → Int) (info : FinishedFunction)
    (st : TrackState) : TrackState :=
  let (now, st) := tickNow clock st
  let ts : TimeSpan := { start := st.last_function_parsed_ts + 3, stop := now }
  let st := { st with
    last_function_parsed_ts := now
    function_events := st.function_events ++
      [FunctionEvent.mk info.name info.file_name ts] }
  match info.scope_name with
  | some sn =>
    let st :=
      match st.scope_events.getLast? with
      | some lastSc =>
        if st.did_last_function_have_scope && lastSc.name == sn then
          { st with scope_events := st.scope_events.dropLast ++
              [{ lastSc with ts := { lastSc.ts with stop := ts.stop + 1 } }] }
        else
          { st with scope_events := st.scope_events ++
              [ScopeEvent.mk sn info.scope_type ⟨ts.start - 1, ts.stop + 1⟩] }
      | none =>
        { st with scope_events := st.scope_events ++
            [ScopeEvent.mk sn info.scope_type ⟨ts.start - 1, ts.stop + 1⟩] }
    { st with did_last_function_have_scope := true }
  | none => { st with did_last_function_have_scope := false }

/-! ### Event writers (`tracking.cpp`, lower half)

The C++ `write_*` functions feed `add_event`; here each is split into the
pure list of `TraceEvent` values it passes to `add_event`, in call order. -/

/-- The `TraceEvent` that `write_opt_pass_events` builds for one history
entry. -/
def passTraceEvent (e : OptPassEvent) : TraceEvent where
  name := e.pass.name
  category := pass_type e.pass.ptype
  ts := e.ts
  args := some [("static_pass_number", toString e.pass.static_pass_number)]

/-- Embeds the loop of `write_opt_pass_events` from `tracking.cpp`: the
events handed to `add_event`, in order. -/
def write_opt_pass_events (st : TrackState) : List TraceEvent :=
  st.pass_events.map passTraceEvent

/-- The loop body of `write_preprocessing_events`: walks the stored
`preprocess_start` entries; `preprocess_end.at(file)` throws when the key is
missing, hence the `Option` result (`none` embeds the throw). -/
def preprocessEventsList (st : TrackState) : List (String × Int) → Option (List TraceEvent)
  | [] => some []
  | (file, start) :: rest =>
    if file = CIRCULAR_POISON_VALUE then preprocessEventsList st rest
    else
      match st.preprocess_end.lookup file with
      | none => none
      | some e =>
        (preprocessEventsList st rest).map
          (fun l => TraceEvent.mk (normalized_file_name st file)
            EventCategory.PREPROCESS ⟨start, e⟩ none :: l)

/-- Embeds `write_preprocessing_events` from `tracking.cpp`: first the
safety call to `finish_preprocessing_stage`, then the emission loop. -/
def write_preprocessing_events (clock : Nat → Int) (st : TrackState) :
    TrackState × Option (List TraceEvent) :=
  let st := finish_preprocessing_stage clock st
  (st, preprocessEventsList st st.preprocess_start)

/-- Embeds the loop of `write_all_scopes` from `tracking.cpp`. -/
def write_all_scopes (st : TrackState) : List TraceEvent :=
  st.scope_events.map (fun e => TraceEvent.mk e.name e.type e.ts none)

/-- Embeds the loop of `write_all_functions` from `tracking.cpp`. -/
def write_all_functions (st : TrackState) : List TraceEvent :=
  st.function_events.map (fun e =>
    TraceEvent.mk e.name EventCategory.FUNCTION e.ts
      (some [("file", normalized_file_name st e.file_name)]))

/-! ### The JSON emitter (`perf_output.cpp`) -/

/-- Embeds `MINIMUM_EVENT_LENGTH_NS` from `perf_output.cpp` (1 ms). -/
def MINIMUM_EVENT_LENGTH_NS : Int := 1000000

/-- One JSON record built by `new_event` in `perf_output.cpp`.  The `ts`
field keeps the nanosecond value handed to `new_event` (the C++ serializes
`ts * 0.001` microseconds, a formatting detail); `uid` is the `args.UID`
integer, kept apart from the string-valued extra args. -/
structure OutEvent where
  name : String
  ph : String
  cat : EventCategory
  ts : Int
  pid : Int
  tid : Int
  uid : Int
  args : Option (List (String × String))
deriving Repr, DecidableEq

/-- Embeds `new_event` from `perf_output.cpp`. -/
def new_event (event : TraceEvent) (pid tid : Int) (ts : Int) (phase : String)
    (this_uid : Int) : OutEvent :=
  ⟨event.name, phase, event.category, ts, pid, tid, this_uid, event.args⟩

/-- The emitter state: the static `UID` counter of `add_event` and the
`traceEvents` array contents. -/
structure EmitState where
  uid : Int
  events : List OutEvent
deriving Repr, DecidableEq

/-- The emitter state right after `init_output_file`: empty event array,
`UID` counter zero. -/
def initEmit : EmitState := ⟨0, []⟩

/-- Embeds `add_event` from `perf_output.cpp` (`pid` is the host process id,
`tid` is the constant 0). -/
def add_event (pid : Int) (event : TraceEvent) (es : EmitState) : EmitState :=
  if event.ts.stop - event.ts.start < MINIMUM_EVENT_LENGTH_NS then es
  else
    { uid := es.uid + 1
      events := es.events ++
        [new_event event pid 0 event.ts.start "B" es.uid,
         new_event event pid 0 event.ts.stop "E" es.uid] }

/-- Folding a list of trace events through `add_event`, in order. -/
def add_events (pid : Int) (l : List TraceEvent) (es : EmitState) : EmitState :=
  l.foldl (fun a e => add_event pid e a) es

/-- Embeds `write_all_events` from `perf_output.cpp`: the synthetic TU
event, then the four write loops.  Returns the final tracking state and the
emitter state (`none` embeds the `preprocess_end.at` throw). -/
def write_all_events (clock : Nat → Int) (pid : Int) (st : TrackState)
    (es : EmitState) : TrackState × Option EmitState :=
  let (now, st) := tickNow clock st
  let es := add_event pid ⟨"TU", EventCategory.TU, ⟨0, now⟩, none⟩ es
  let (st, pre) := write_preprocessing_events clock st
  match pre with
  | none => (st, none)
  | some preEvents =>
    let es := add_events pid preEvents es
    let es := add_events pid (write_opt_pass_events st) es
    let es := add_events pid (write_all_functions st) es
    let es := add_events pid (write_all_scopes st) es
    (st, some es)

/-! ### The callback sequences driven by the host (`plugin.cpp`) -/

/-- One host-toolchain callback reaching the tracking core (spec section 6):
file enter/leave, declaration finished, function parsed, pass execution. -/
inductive Callback
  | enter (file_name : Option String) (pfile : Option PFileInfo)
  | leave
  | finishDecl
  | finishFn (info : FinishedFunction)
  | optPass (p : OptPass)
deriving Repr, DecidableEq

/-- The state transition of one callback. -/
def step (clock : Nat → Int) (c : Callback) (st : TrackState) : TrackState :=
  match c with
  | .enter f p => start_preprocess_file clock f p st
  | .leave => end_preprocess_file clock st
  | .finishDecl => finish_preprocessing_stage clock st
  | .finishFn i => end_parse_function clock i st
  | .optPass p => start_opt_pass clock p st

/-- Running a whole callback sequence. -/
def run (clock : Nat → Int) (cbs : List Callback) (st : TrackState) : TrackState :=
  cbs.foldl (fun s c => step clock c s) st

/-- The precondition of claim C10: every explicit `leave` callback in the
sequence is delivered while the preprocessing stack is non-empty. -/
def leavesSafe (clock : Nat → Int) : List Callback → TrackState → Prop
  | [], _ => True
  | c :: rest, st =>
    (c = Callback.leave → st.preprocessing_stack ≠ []) ∧
      leavesSafe clock rest (step clock c st)

/-- A concrete strictly monotone clock: the i-th reading is i nanoseconds. -/
def idClock : Nat → Int := fun i => (i : Int)

/-! ### Generic helper lemmas -/

theorem idClock_strictMono : StrictMono idClock := fun _ _ h => by
  simpa [idClock] using h

theorem lookup_mem {β : Type} {l : List (String × β)} {k : String} {v : β}
    (h : l.lookup k = some v) : (k, v) ∈ l := by
  induction l with
  | nil => simp [List.lookup] at h
  | cons q rest ih =>
    rw [List.lookup] at h
    by_cases hk : k = q.1
    · simp [hk] at h
      simp [← h, hk]
    · simp [beq_eq_false_iff_ne.2 hk] at h
      exact List.mem_cons_of_mem _ (ih h)

theorem lookup_append_some {β : Type} {l₁ : List (String × β)} {k : String}
    {v : β} (l₂ : List (String × β)) (h : l₁.lookup k = some v) :
    (l₁ ++ l₂).lookup k = some v := by
  induction l₁ with
  | nil => simp [List.lookup] at h
  | cons q rest ih =>
    rw [List.lookup] at h
    rw [List.cons_append, List.lookup]
    by_cases hk : k = q.1
    · simpa [hk] using by simpa [hk] using h
    · rw [beq_eq_false_iff_ne.2 hk] at h ⊢
      exact ih h

theorem lookup_append_none {β : Type} {l₁ : List (String × β)} {k : String}
    (l₂ : List (String × β)) (h : l₁.lookup k = none) :
    (l₁ ++ l₂).lookup k = l₂.lookup k := by
  induction l₁ with
  | nil => simp
  | cons q rest ih =>
    rw [List.lookup] at h
    rw [List.cons_append, List.lookup]
    by_cases hk : k = q.1
    · simp [hk] at h
    · rw [beq_eq_false_iff_ne.2 hk] at h ⊢
      exact ih h

theorem lookup_isSome_append {β : Type} {l₁ : List (String × β)} {k : String}
    (l₂ : List (String × β)) (h : (l₁.lookup k).isSome = true) :
    ((l₁ ++ l₂).lookup k).isSome = true := by
  rcases Option.isSome_iff_exists.1 h with ⟨v, hv⟩
  rw [lookup_append_some l₂ hv]
  rfl

/-! ### Closed form of the `add_event` fold (claim C5) -/

/-- The begin/end pairs that a list of trace events contributes to the
`traceEvents` array, starting from `UID` counter value `u`. -/
def pairsFrom (pid : Int) (u : Int) : List TraceEvent → List OutEvent
  | [] => []
  | e :: rest =>
    if e.ts.stop - e.ts.start < MINIMUM_EVENT_LENGTH_NS then pairsFrom pid u rest
    else new_event e pid 0 e.ts.start "B" u :: new_event e pid 0 e.ts.stop "E" u ::
      pairsFrom pid (u + 1) rest

theorem add_events_eq_pairsFrom (pid : Int) (l : List TraceEvent) :
    ∀ es : EmitState, (add_events pid l es).events = es.events ++ pairsFrom pid es.uid l := by
  induction l with
  | nil => intro es; simp [add_events, pairsFrom]
  | cons e rest ih =>
    intro es
    show (add_events pid rest (add_event pid e es)).events = _
    rw [ih]
    by_cases h : e.ts.stop - e.ts.start < MINIMUM_EVENT_LENGTH_NS
    · simp [add_event, pairsFrom, h]
    · simp [add_event, pairsFrom, h]

theorem pairsFrom_uid_ge (pid : Int) (l : List TraceEvent) :
    ∀ u : Int, ∀ r ∈ pairsFrom pid u l, u ≤ r.uid := by
  induction l with
  | nil => intro u r hr; simp [pairsFrom] at hr
  | cons e rest ih =>
    intro u r hr
    rw [pairsFrom] at hr
    by_cases h : e.ts.stop - e.ts.start < MINIMUM_EVENT_LENGTH_NS
    · rw [if_pos h] at hr
      exact ih u r hr
    · rw [if_neg h] at hr
      rcases List.mem_cons.1 hr with hr | hr
      · subst hr; exact le_refl u
      · rcases List.mem_cons.1 hr with hr | hr
        · subst hr; exact le_refl u
        · have := ih (u + 1) r hr
          omega

theorem pairsFrom_chain_le (pid : Int) (l : List TraceEvent) :
    ∀ u : Int, List.Chain' (fun a b => a.uid ≤ b.uid) (pairsFrom pid u l) := by
  induction l with
  | nil => intro u; simp [pairsFrom]
  | cons e rest ih =>
    intro u
    rw [pairsFrom]
    by_cases h : e.ts.stop - e.ts.start < MINIMUM_EVENT_LENGTH_NS
    · rw [if_pos h]; exact ih u
    · rw [if_neg h]
      refine List.chain'_cons.2 ⟨le_refl u, List.chain'_cons'.2 ⟨?_, ih (u + 1)⟩⟩
      intro y hy
      have huid := pairsFrom_uid_ge pid rest (u + 1) y (List.mem_of_mem_head? hy)
      show (new_event e pid 0 e.ts.stop "E" u).uid ≤ y.uid
      simp only [new_event]
      omega

theorem pairsFrom_filter_B_chain (pid : Int) (l : List TraceEvent) :
    ∀ u : Int, List.Chain' (fun a b => a.uid < b.uid)
      ((pairsFrom pid u l).filter (fun r => r.ph == "B")) := by
  induction l with
  | nil => intro u; simp [pairsFrom]
  | cons e rest ih =>
    intro u
    rw [pairsFrom]
    by_cases h : e.ts.stop - e.ts.start < MINIMUM_EVENT_LENGTH_NS
    · rw [if_pos h]; exact ih u
    · rw [if_neg h]
      have hfilter : (new_event e pid 0 e.ts.start "B" u ::
          new_event e pid 0 e.ts.stop "E" u :: pairsFrom pid (u + 1) rest).filter
            (fun r => r.ph == "B") =
          new_event e pid 0 e.ts.start "B" u ::
            (pairsFrom pid (u + 1) rest).filter (fun r => r.ph == "B") := by
        simp [List.filter_cons, new_event]
      rw [hfilter]
      refine List.chain'_cons'.2 ⟨?_, ih (u + 1)⟩
      intro y hy
      have hmem2 := List.mem_of_mem_filter (List.mem_of_mem_head? hy)
      have huid := pairsFrom_uid_ge pid rest (u + 1) y hmem2
      have hx : (new_event e pid 0 e.ts.start "B" u).uid = u := rfl
      rw [hx]
      omega

/-- C5: `add_event` drops every event whose duration `end - start` is
strictly below 1,000,000 ns, and appends every surviving event as exactly one
"B" record carrying `start` and one "E" record carrying `end` with equal
`args.UID`, the `UID` counter advancing by one; over a whole emission fold
the resulting `traceEvents` array is the pair list `pairsFrom`, in which the
`UID` values are monotonically non-decreasing record-to-record and strictly
increasing across successive surviving events (their "B" records). -/
theorem claim_C5 (pid : Int) (event : TraceEvent) (es : EmitState)
    (l : List TraceEvent) (u : Int) :
    (event.ts.stop - event.ts.start < 1000000 → add_event pid event es = es) ∧
    (1000000 ≤ event.ts.stop - event.ts.start →
      (add_event pid event es).events = es.events ++
        [new_event event pid 0 event.ts.start "B" es.uid,
         new_event event pid 0 event.ts.stop "E" es.uid] ∧
      (new_event event pid 0 event.ts.start "B" es.uid).uid =
        (new_event event pid 0 event.ts.stop "E" es.uid).uid ∧
      (add_event pid event es).uid = es.uid + 1) ∧
    (add_events pid l es).events = es.events ++ pairsFrom pid es.uid l ∧
    List.Chain' (fun a b => a.uid ≤ b.uid) (pairsFrom pid u l) ∧
    List.Chain' (fun a b => a.uid < b.uid)
      ((pairsFrom pid u l).filter (fun r => r.ph == "B")) := by
  refine ⟨fun h => ?_, fun h => ⟨?_, rfl, ?_⟩, add_events_eq_pairsFrom pid l es,
    pairsFrom_chain_le pid l u, pairsFrom_filter_B_chain pid l u⟩
  · simp [add_event, MINIMUM_EVENT_LENGTH_NS, h]
  · simp [add_event, MINIMUM_EVENT_LENGTH_NS, not_lt.2 h]
  · simp [add_event, MINIMUM_EVENT_LENGTH_NS, not_lt.2 h]

/-- Witness for C5: a 999,999 ns event contributes nothing; a 1,000,001 ns
event survives as a matching begin/end pair. -/
theorem claim_C5_witness :
    add_event 7 (TraceEvent.mk "e" EventCategory.FUNCTION ⟨0, 999999⟩ none) initEmit
      = initEmit ∧
    (add_event 7 (TraceEvent.mk "e" EventCategory.FUNCTION ⟨0, 1000001⟩ none)
        initEmit).events = initEmit.events ++
      [new_event (TraceEvent.mk "e" EventCategory.FUNCTION ⟨0, 1000001⟩ none) 7 0 0 "B" 0,
       new_event (TraceEvent.mk "e" EventCategory.FUNCTION ⟨0, 1000001⟩ none) 7 0 1000001 "E" 0] :=
  ⟨(claim_C5 7 (TraceEvent.mk "e" EventCategory.FUNCTION ⟨0, 999999⟩ none)
      initEmit [] 0).1 (by decide),
   ((claim_C5 7 (TraceEvent.mk "e" EventCategory.FUNCTION ⟨0, 1000001⟩ none)
      initEmit [] 0).2.1 (by decide)).1⟩

/-- C7: `normalized_file_name` (the `resolve` operation) is a pure total
function; it returns the stored normalized name exactly when the path is
registered in `normalized_files_map` and that name is not in
`conflicted_files`, and otherwise returns the input path unchanged. -/
theorem claim_C7 (st : TrackState) (file_name : String) :
    (∀ n, st.normalized_files_map.lookup file_name = some n →
      n ∉ st.conflicted_files → normalized_file_name st file_name = n) ∧
    (∀ n, st.normalized_files_map.lookup file_name = some n →
      n ∈ st.conflicted_files → normalized_file_name st file_name = file_name) ∧
    (st.normalized_files_map.lookup file_name = none →
      normalized_file_name st file_name = file_name) := by
  refine ⟨fun n hn hc => ?_, fun n hn hc => ?_, fun hn => ?_⟩ <;>
    simp [normalized_file_name, hn] <;> simp [hc]

/-- Witness for C7: a registered, unconflicted path resolves to its stored
name; an unregistered path resolves to itself. -/
theorem claim_C7_witness :
    normalized_file_name
      (register_include_location initState "/a/b/c.h" "/a/b") "/a/b/c.h" = "c.h" ∧
    normalized_file_name initState "/q.h" = "/q.h" :=
  ⟨(claim_C7 (register_include_location initState "/a/b/c.h" "/a/b") "/a/b/c.h").1
      "c.h" (by decide) (by decide),
   (claim_C7 initState "/q.h").2.2 (by decide)⟩

/-- C8: calling `finish_preprocessing_stage` when the preprocessing stack is
empty is a no-op, any number of times: the whole tracking state (inclusion
start/end maps, stack, last-boundary timestamp, and everything else) is
unchanged. -/
theorem claim_C8 (clock : Nat → Int) (st : TrackState)
    (h : st.preprocessing_stack = []) (n : Nat) :
    (finish_preprocessing_stage clock)^[n] st = st := by
  have hfix : finish_preprocessing_stage clock st = st := by
    simp [finish_preprocessing_stage, h, finish_aux]
  exact Function.iterate_fixed hfix n

/-- Witness for C8 at the initial state, two repetitions. -/
theorem claim_C8_witness :
    (finish_preprocessing_stage idClock)^[2] initState = initState :=
  claim_C8 idClock initState rfl 2

/-- C9: `start_preprocess_file` with a null file name or the special name
"<command-line>" returns immediately after its initial clock read: every
tracking component (inclusion start/end maps, stack, path-normalization
tables, last-boundary timestamp, pass and scope/function stores) is
unchanged; only the clock read counter advances. -/
theorem claim_C9 (clock : Nat → Int) (pfile : Option PFileInfo)
    (st : TrackState) (file_name : Option String)
    (h : file_name = none ∨ file_name = some "<command-line>") :
    start_preprocess_file clock file_name pfile st = { st with tick := st.tick + 1 } := by
  rcases h with h | h <;> subst h
  · rfl
  · simp [start_preprocess_file, tickNow]

/-- Witness for C9 at the initial state with the "<command-line>" name. -/
theorem claim_C9_witness :
    start_preprocess_file idClock (some "<command-line>") none initState =
      { initState with tick := initState.tick + 1 } :=
  claim_C9 idClock none initState (some "<command-line>") (Or.inr rfl)

theorem lookup_cons_self {β : Type} {k : String} {v : β} {rest : List (String × β)} :
    List.lookup k ((k, v) :: rest) = some v := by
  simp [List.lookup]

theorem lookup_cons_ne {β : Type} {k k' : String} {v : β} {rest : List (String × β)}
    (h : k ≠ k') : List.lookup k ((k', v) :: rest) = List.lookup k rest := by
  simp [List.lookup, beq_eq_false_iff_ne.2 h]

/-- Projection frame of `register_include_location`: it only writes the
four path-normalization containers. -/
theorem register_include_location_frame (st : TrackState) (f d : String) :
    (register_include_location st f d).preprocess_start = st.preprocess_start ∧
    (register_include_location st f d).preprocess_end = st.preprocess_end ∧
    (register_include_location st f d).preprocessing_stack = st.preprocessing_stack ∧
    (register_include_location st f d).last_function_parsed_ts =
      st.last_function_parsed_ts ∧
    (register_include_location st f d).last_pass = st.last_pass ∧
    (register_include_location st f d).pass_events = st.pass_events ∧
    (register_include_location st f d).function_events = st.function_events ∧
    (register_include_location st f d).tick = st.tick := by
  simp only [register_include_location]
  split
  · exact ⟨rfl, rfl, rfl, rfl, rfl, rfl, rfl, rfl⟩
  · split
    · split
      · exact ⟨rfl, rfl, rfl, rfl, rfl, rfl, rfl, rfl⟩
      · exact ⟨rfl, rfl, rfl, rfl, rfl, rfl, rfl, rfl⟩
    · exact ⟨rfl, rfl, rfl, rfl, rfl, rfl, rfl, rfl⟩

/-- `start_preprocess_file` on a filtered name (null or "<command-line>"):
only the clock read happens. -/
theorem start_preprocess_file_filtered (clock : Nat → Int)
    (pfile : Option PFileInfo) (st : TrackState) (file_name : Option String)
    (h : file_name = none ∨ file_name = some "<command-line>") :
    start_preprocess_file clock file_name pfile st =
      { st with tick := st.tick + 1 } := by
  rcases h with h | h <;> subst h
  · rfl
  · simp [start_preprocess_file, tickNow]

/-- The identifier an unfiltered `start_preprocess_file` call actually
tracks: the poison sentinel when the call is a circular re-entry, the raw
name otherwise. -/
def spfName (st : TrackState) (fname0 : String) : String :=
  if (st.preprocess_start.lookup fname0).isSome &&
      (st.preprocess_end.lookup fname0).isNone
  then CIRCULAR_POISON_VALUE else fname0

/-- Effect of an unfiltered `start_preprocess_file` call on the inclusion
start map and the stack. -/
theorem start_preprocess_file_start_stack (clock : Nat → Int) (fname0 : String)
    (pfile : Option PFileInfo) (st : TrackState)
    (h1 : ¬ fname0 = "<command-line>") :
    (start_preprocess_file clock (some fname0) pfile st).preprocess_start =
      (if (st.preprocess_start.lookup (spfName st fname0)).isSome = true
       then st.preprocess_start
       else st.preprocess_start ++ [(spfName st fname0, clock st.tick)]) ∧
    (start_preprocess_file clock (some fname0) pfile st).preprocessing_stack =
      spfName st fname0 :: st.preprocessing_stack := by
  simp only [start_preprocess_file, tickNow, spfName, if_neg h1]
  by_cases hc : ((st.preprocess_start.lookup fname0).isSome &&
      (st.preprocess_end.lookup fname0).isNone) = true
  · simp only [if_pos hc]
    (repeat' split) <;> simp_all
  · simp only [if_neg hc]
    (repeat' split) <;> simp_all [register_include_location_frame]

/-- Frame of an unfiltered `start_preprocess_file` call: the end map, the
boundary timestamp, the pass and function stores are untouched; the clock
is read once. -/
theorem start_preprocess_file_frame (clock : Nat → Int) (fname0 : String)
    (pfile : Option PFileInfo) (st : TrackState)
    (h1 : ¬ fname0 = "<command-line>") :
    (start_preprocess_file clock (some fname0) pfile st).preprocess_end =
      st.preprocess_end ∧
    (start_preprocess_file clock (some fname0) pfile st).last_function_parsed_ts =
      st.last_function_parsed_ts ∧
    (start_preprocess_file clock (some fname0) pfile st).last_pass = st.last_pass ∧
    (start_preprocess_file clock (some fname0) pfile st).pass_events =
      st.pass_events ∧
    (start_preprocess_file clock (some fname0) pfile st).function_events =
      st.function_events ∧
    (start_preprocess_file clock (some fname0) pfile st).tick = st.tick + 1 := by
  simp only [start_preprocess_file, tickNow, if_neg h1]
  by_cases hc : ((st.preprocess_start.lookup fname0).isSome &&
      (st.preprocess_end.lookup fname0).isNone) = true
  · simp only [if_pos hc]
    (repeat' split) <;> simp_all
  · simp only [if_neg hc]
    (repeat' split) <;> simp_all [register_include_location_frame]

/-- Frame of `end_parse_function` over the preprocessing and stage state. -/
theorem end_parse_function_frame (clock : Nat → Int) (i : FinishedFunction)
    (st : TrackState) :
    (end_parse_function clock i st).preprocess_start = st.preprocess_start ∧
    (end_parse_function clock i st).preprocess_end = st.preprocess_end ∧
    (end_parse_function clock i st).preprocessing_stack = st.preprocessing_stack ∧
    (end_parse_function clock i st).last_pass = st.last_pass ∧
    (end_parse_function clock i st).pass_events = st.pass_events := by
  cases hs : i.scope_name with
  | none => simp [end_parse_function, tickNow, hs]
  | some sn =>
    cases hgl : st.scope_events.getLast? with
    | none => simp [end_parse_function, tickNow, hs, hgl]
    | some lastSc =>
      by_cases hcnd : (st.did_last_function_have_scope && (lastSc.name == sn)) = true
      · simp [end_parse_function, tickNow, hs, hgl, hcnd]
      · simp [end_parse_function, tickNow, hs, hgl, hcnd]

/-- Frame of `start_opt_pass` over the preprocessing and function state. -/
theorem start_opt_pass_frame (clock : Nat → Int) (p : OptPass) (st : TrackState) :
    (start_opt_pass clock p st).preprocess_start = st.preprocess_start ∧
    (start_opt_pass clock p st).preprocess_end = st.preprocess_end ∧
    (start_opt_pass clock p st).preprocessing_stack = st.preprocessing_stack ∧
    (start_opt_pass clock p st).last_function_parsed_ts =
      st.last_function_parsed_ts ∧
    (start_opt_pass clock p st).function_events = st.function_events ∧
    (start_opt_pass clock p st).tick = st.tick + 1 := by
  cases h : st.last_pass.pass <;> simp [start_opt_pass, tickNow, h]

/-- Characterization of `end_preprocess_file` on a non-empty stack. -/
theorem end_preprocess_file_cases (clock : Nat → Int) (st : TrackState)
    (top : String) (rest : List String)
    (h : st.preprocessing_stack = top :: rest) :
    end_preprocess_file clock st = { st with
      preprocess_end :=
        if (st.preprocess_end.lookup top).isSome = true then st.preprocess_end
        else st.preprocess_end ++ [(top, clock st.tick)],
      preprocessing_stack := rest,
      last_function_parsed_ts := clock st.tick + 3,
      tick := st.tick + 1 } := by
  simp only [end_preprocess_file, tickNow, h]
  (repeat' split) <;> simp_all

/-- `end_preprocess_file` on an empty stack (host contract violation): only
the clock read is modelled. -/
theorem end_preprocess_file_empty (clock : Nat → Int) (st : TrackState)
    (h : st.preprocessing_stack = []) :
    end_preprocess_file clock st = { st with tick := st.tick + 1 } := by
  simp [end_preprocess_file, tickNow, h]

/-! ### Coverage of inclusion-start keys (claim C10) -/

/-- Every key of the inclusion start map is closed in the end map or still
open on the stack. -/
def startCovered (st : TrackState) : Prop :=
  ∀ q ∈ st.preprocess_start,
    (st.preprocess_end.lookup q.1).isSome = true ∨ q.1 ∈ st.preprocessing_stack

theorem startCovered_end_preprocess_file (clock : Nat → Int) (st : TrackState)
    (h : startCovered st) : startCovered (end_preprocess_file clock st) := by
  cases hstk : st.preprocessing_stack with
  | nil =>
    rw [end_preprocess_file_empty clock st hstk]
    intro q hq
    rcases h q hq with hend | hmem
    · exact Or.inl hend
    · exact Or.inr hmem
  | cons top rest =>
    rw [end_preprocess_file_cases clock st top rest hstk]
    intro q hq
    by_cases he : (st.preprocess_end.lookup top).isSome = true
    · simp only [if_pos he]
      rcases h q hq with hend | hmem
      · exact Or.inl hend
      · rw [hstk] at hmem
        rcases List.mem_cons.1 hmem with hmem | hmem
        · exact Or.inl (hmem ▸ he)
        · exact Or.inr hmem
    · simp only [if_neg he]
      rcases h q hq with hend | hmem
      · exact Or.inl (lookup_isSome_append _ hend)
      · rw [hstk] at hmem
        rcases List.mem_cons.1 hmem with hmem | hmem
        · refine Or.inl ?_
          rw [hmem, lookup_append_none _ (Option.not_isSome_iff_eq_none.1 he),
            lookup_cons_self]
          rfl
        · exact Or.inr hmem

theorem startCovered_finish_aux (clock : Nat → Int) :
    ∀ (n : Nat) (s : TrackState), startCovered s →
      startCovered (finish_aux clock n s) := by
  intro n
  induction n with
  | zero => intro s h; exact h
  | succ m ih =>
    intro s h
    rw [finish_aux]
    by_cases hs : s.preprocessing_stack.isEmpty
    · simp only [hs, if_true]; exact h
    · simp only [hs, Bool.false_eq_true, if_false, tickNow]
      refine ih _ ?_
      intro q hq
      exact startCovered_end_preprocess_file clock s h q hq

theorem startCovered_step (clock : Nat → Int) (c : Callback) (st : TrackState)
    (h : startCovered st) : startCovered (step clock c st) := by
  cases c with
  | enter f p =>
    show startCovered (start_preprocess_file clock f p st)
    cases f with
    | none =>
      rw [start_preprocess_file_filtered clock p st none (Or.inl rfl)]
      intro q hq; exact h q hq
    | some fname0 =>
      by_cases h1 : fname0 = "<command-line>"
      · rw [h1, start_preprocess_file_filtered clock p st (some "<command-line>")
          (Or.inr rfl)]
        intro q hq; exact h q hq
      · intro q hq
        rw [(start_preprocess_file_start_stack clock fname0 p st h1).1] at hq
        rw [(start_preprocess_file_frame clock fname0 p st h1).1,
          (start_preprocess_file_start_stack clock fname0 p st h1).2]
        by_cases hl : (st.preprocess_start.lookup (spfName st fname0)).isSome = true
        · rw [if_pos hl] at hq
          rcases h q hq with hend | hmem
          · exact Or.inl hend
          · exact Or.inr (List.mem_cons_of_mem _ hmem)
        · rw [if_neg hl] at hq
          rcases List.mem_append.1 hq with hq | hq
          · rcases h q hq with hend | hmem
            · exact Or.inl hend
            · exact Or.inr (List.mem_cons_of_mem _ hmem)
          · rcases List.mem_singleton.1 hq with rfl
            exact Or.inr (List.mem_cons_self _ _)
  | leave => exact startCovered_end_preprocess_file clock st h
  | finishDecl => exact startCovered_finish_aux clock _ st h
  | finishFn i =>
    show startCovered (end_parse_function clock i st)
    intro q hq
    rw [(end_parse_function_frame clock i st).1] at hq
    rw [(end_parse_function_frame clock i st).2.1,
      (end_parse_function_frame clock i st).2.2.1]
    exact h q hq
  | optPass p =>
    show startCovered (start_opt_pass clock p st)
    intro q hq
    rw [(start_opt_pass_frame clock p st).1] at hq
    rw [(start_opt_pass_frame clock p st).2.1,
      (start_opt_pass_frame clock p st).2.2.1]
    exact h q hq

theorem startCovered_run (clock : Nat → Int) :
    ∀ (cbs : List Callback) (st : TrackState), startCovered st →
      startCovered (run clock cbs st) := by
  intro cbs
  induction cbs with
  | nil => intro st h; exact h
  | cons c rest ih =>
    intro st h
    exact ih (step clock c st) (startCovered_step clock c st h)

theorem finish_aux_stack_empty (clock : Nat → Int) :
    ∀ (n : Nat) (s : TrackState), s.preprocessing_stack.length ≤ n →
      (finish_aux clock n s).preprocessing_stack = [] := by
  intro n
  induction n with
  | zero =>
    intro s hlen
    exact List.length_eq_zero.1 (Nat.le_zero.1 hlen)
  | succ m ih =>
    intro s hlen
    rw [finish_aux]
    by_cases hs : s.preprocessing_stack.isEmpty
    · simp only [hs, if_true]
      exact List.isEmpty_iff.1 hs
    · simp only [hs, Bool.false_eq_true, if_false, tickNow]
      obtain ⟨top, rest, hsr⟩ : ∃ top rest, s.preprocessing_stack = top :: rest := by
        cases hcase : s.preprocessing_stack with
        | nil => rw [hcase] at hs; exact absurd rfl hs
        | cons a b => exact ⟨a, b, rfl⟩
      refine ih _ ?_
      have hstk : (end_preprocess_file clock s).preprocessing_stack = rest := by
        rw [end_preprocess_file_cases clock s top rest hsr]
      show ((end_preprocess_file clock s).preprocessing_stack).length ≤ m
      rw [hstk]
      rw [hsr] at hlen
      simpa using Nat.lt_succ_iff.1 (Nat.lt_of_lt_of_le (by simp) hlen)

theorem finish_stage_stack_empty (clock : Nat → Int) (st : TrackState) :
    (finish_preprocessing_stage clock st).preprocessing_stack = [] :=
  finish_aux_stack_empty clock _ st le_rfl

theorem preprocessEventsList_isSome (st : TrackState) :
    ∀ l : List (String × Int),
      (∀ q ∈ l, (st.preprocess_end.lookup q.1).isSome = true) →
      (preprocessEventsList st l).isSome = true := by
  intro l
  induction l with
  | nil => intro _; simp [preprocessEventsList]
  | cons q rest ih =>
    intro h
    obtain ⟨file, start⟩ := q
    rw [preprocessEventsList]
    by_cases hp : file = CIRCULAR_POISON_VALUE
    · rw [if_pos hp]
      exact ih (fun r hr => h r (List.mem_cons_of_mem _ hr))
    · rw [if_neg hp]
      have hk := h (file, start) (List.mem_cons_self _ _)
      rcases Option.isSome_iff_exists.1 hk with ⟨e, he⟩
      rw [he]
      have := ih (fun r hr => h r (List.mem_cons_of_mem _ hr))
      rcases Option.isSome_iff_exists.1 this with ⟨l2, hl2⟩
      rw [hl2]
      rfl

/-- C10: under the precondition that `end_preprocess_file` is only invoked
on a non-empty stack, after `finish_preprocessing_stage` every key of the
inclusion start map has an entry in the end map, so the
`preprocess_end.at(file)` lookup in `write_preprocessing_events` never
reaches its failure branch. -/
theorem claim_C10 (clock : Nat → Int) (cbs : List Callback)
    (hwf : leavesSafe clock cbs initState) :
    (∀ q ∈ (finish_preprocessing_stage clock
        (run clock cbs initState)).preprocess_start,
      ((finish_preprocessing_stage clock
        (run clock cbs initState)).preprocess_end.lookup q.1).isSome = true) ∧
    ((write_preprocessing_events clock (run clock cbs initState)).2.isSome
      = true) := by
  have hcov0 : startCovered initState := by
    intro q hq
    simp [initState] at hq
  have hcov := startCovered_run clock cbs initState hcov0
  have hcovF : startCovered (finish_preprocessing_stage clock
      (run clock cbs initState)) :=
    startCovered_finish_aux clock _ _ hcov
  have hstk := finish_stage_stack_empty clock (run clock cbs initState)
  have hkeys : ∀ q ∈ (finish_preprocessing_stage clock
      (run clock cbs initState)).preprocess_start,
      ((finish_preprocessing_stage clock
        (run clock cbs initState)).preprocess_end.lookup q.1).isSome = true := by
    intro q hq
    rcases hcovF q hq with hend | hmem
    · exact hend
    · rw [hstk] at hmem
      cases hmem
  refine ⟨hkeys, ?_⟩
  show (preprocessEventsList (finish_preprocessing_stage clock
      (run clock cbs initState)) (finish_preprocessing_stage clock
      (run clock cbs initState)).preprocess_start).isSome = true
  exact preprocessEventsList_isSome _ _ hkeys

/-- Witness for C10 with a properly paired enter/leave sequence. -/
theorem claim_C10_witness :
    leavesSafe idClock [Callback.enter (some "x") none, Callback.leave]
      initState ∧
    (write_preprocessing_events idClock (run idClock
      [Callback.enter (some "x") none, Callback.leave] initState)).2.isSome
      = true := by
  have hwf : leavesSafe idClock [Callback.enter (some "x") none, Callback.leave]
      initState :=
    ⟨fun hco => absurd hco (by decide), fun _ => by decide, trivial⟩
  exact ⟨hwf, (claim_C10 idClock
    [Callback.enter (some "x") none, Callback.leave] hwf).2⟩

/-- The circular-inclusion callback sequence of claim C3:
enter "x", enter "x", leave, leave. -/
def circularSeq : List Callback :=
  [Callback.enter (some "x") none, Callback.enter (some "x") none,
   Callback.leave, Callback.leave]

/-- C3: the callback sequence `enter "x"`, `enter "x"`, `leave`, `leave`
(with any clock) records exactly one real inclusion for `"x"`, spanning the
outer enter (first reading) to the outer leave (fourth reading); the inner
enter is rerouted to the `CIRCULAR_POISON_VALUE` sentinel, and the
preprocessing writer emits exactly the one `"x"` event, skipping the
sentinel record unconditionally. -/
theorem claim_C3 (clock : Nat → Int) :
    (run clock circularSeq initState).preprocess_start =
      [("x", clock 0), (CIRCULAR_POISON_VALUE, clock 1)] ∧
    (run clock circularSeq initState).preprocess_end =
      [(CIRCULAR_POISON_VALUE, clock 2), ("x", clock 3)] ∧
    (run clock circularSeq initState).preprocessing_stack = [] ∧
    write_preprocessing_events clock (run clock circularSeq initState) =
      (run clock circularSeq initState,
       some [TraceEvent.mk "x" EventCategory.PREPROCESS ⟨clock 0, clock 3⟩ none]) :=
  ⟨rfl, rfl, rfl, rfl⟩

/-- C4: registering `"/a/b/c.h"` with directory `"/a/b"` makes the resolver
return `"c.h"`; after a second distinct path that also normalizes to
`"c.h"` is registered, resolving either of the two paths yields that path's
original absolute form. -/
theorem claim_C4 (p d : String) (hne : p ≠ "/a/b/c.h")
    (hpre : strStartsWith p d = true)
    (hdrop : strDrop p (d.length + 1) = "c.h") :
    let st1 := register_include_location initState "/a/b/c.h" "/a/b"
    let st2 := register_include_location st1 p d
    normalized_file_name st1 "/a/b/c.h" = "c.h" ∧
    normalized_file_name st2 p = p ∧
    normalized_file_name st2 "/a/b/c.h" = "/a/b/c.h" := by
  intro st1 st2
  have hst1 : st1 = { initState with
      file_to_include_directory := [("/a/b/c.h", "/a/b")],
      normalized_files_map := [("/a/b/c.h", "c.h")],
      normalized_files := ["c.h"] } := by decide
  have hlk : List.lookup p [("/a/b/c.h", "/a/b")] = none := by
    rw [lookup_cons_ne hne]; rfl
  have hst2 : st2 = { initState with
      file_to_include_directory := [("/a/b/c.h", "/a/b"), (p, d)],
      normalized_files_map := [("/a/b/c.h", "c.h"), (p, "c.h")],
      normalized_files := ["c.h"],
      conflicted_files := ["c.h"] } := by
    show register_include_location st1 p d = _
    rw [hst1]
    simp [register_include_location, hlk, hpre, hdrop, insertSet, initState]
  refine ⟨by rw [hst1]; decide, ?_, ?_⟩
  · rw [hst2]
    simp [normalized_file_name, lookup_cons_ne hne, lookup_cons_self]
  · rw [hst2]
    simp [normalized_file_name, lookup_cons_self]

/-- Witness for C4 with the second path `"/x/c.h"` under directory `"/x"`
(which also normalizes to `"c.h"`). -/
theorem claim_C4_witness :
    (¬ ("/x/c.h" : String) = "/a/b/c.h") ∧
    strStartsWith "/x/c.h" "/x" = true ∧
    strDrop "/x/c.h" (("/x" : String).length + 1) = "c.h" ∧
    normalized_file_name
      (register_include_location initState "/a/b/c.h" "/a/b") "/a/b/c.h" = "c.h" ∧
    normalized_file_name
      (register_include_location
        (register_include_location initState "/a/b/c.h" "/a/b") "/x/c.h" "/x")
      "/x/c.h" = "/x/c.h" ∧
    normalized_file_name
      (register_include_location
        (register_include_location initState "/a/b/c.h" "/a/b") "/x/c.h" "/x")
      "/a/b/c.h" = "/a/b/c.h" := by
  have h := claim_C4 "/x/c.h" "/x" (by decide) (by decide) (by decide)
  exact ⟨by decide, by decide, by decide, h.1, h.2.1, h.2.2⟩

/-! ### Scope coalescing steps of `end_parse_function` (claim C6) -/

theorem end_parse_function_proj (clock : Nat → Int) (i : FinishedFunction)
    (st : TrackState) :
    (end_parse_function clock i st).tick = st.tick + 1 ∧
    (end_parse_function clock i st).last_function_parsed_ts = clock st.tick ∧
    (end_parse_function clock i st).function_events = st.function_events ++
      [FunctionEvent.mk i.name i.file_name
        ⟨st.last_function_parsed_ts + 3, clock st.tick⟩] := by
  cases hs : i.scope_name with
  | none => simp [end_parse_function, tickNow, hs]
  | some sn =>
    cases hgl : st.scope_events.getLast? with
    | none => simp [end_parse_function, tickNow, hs, hgl]
    | some lastSc =>
      by_cases hc : (st.did_last_function_have_scope && (lastSc.name == sn)) = true
      · simp [end_parse_function, tickNow, hs, hgl, hc]
      · simp [end_parse_function, tickNow, hs, hgl, hc]

theorem end_parse_function_scope_fresh (clock : Nat → Int) (st : TrackState)
    (i : FinishedFunction) (nm : String) (hs : i.scope_name = some nm)
    (hcond : st.did_last_function_have_scope = false ∨
      (∀ lastSc, st.scope_events.getLast? = some lastSc → lastSc.name ≠ nm)) :
    (end_parse_function clock i st).scope_events = st.scope_events ++
      [ScopeEvent.mk nm i.scope_type
        ⟨st.last_function_parsed_ts + 3 - 1, clock st.tick + 1⟩] ∧
    (end_parse_function clock i st).did_last_function_have_scope = true := by
  cases hgl : st.scope_events.getLast? with
  | none =>
    have h0 : st.scope_events = [] := List.getLast?_eq_none_iff.1 hgl
    simp [end_parse_function, tickNow, hs, h0]
  | some lastSc =>
    rcases hcond with hcond | hcond
    · simp [end_parse_function, tickNow, hs, hgl, hcond]
    · have hne : (lastSc.name == nm) = false :=
        beq_eq_false_iff_ne.2 (hcond lastSc hgl)
      simp [end_parse_function, tickNow, hs, hgl, hne]

theorem end_parse_function_scope_extend (clock : Nat → Int) (st : TrackState)
    (i : FinishedFunction) (nm : String) (ty : EventCategory) (sp : TimeSpan)
    (pre : List ScopeEvent)
    (h0 : st.scope_events = pre ++ [ScopeEvent.mk nm ty sp])
    (h1 : st.did_last_function_have_scope = true)
    (hs : i.scope_name = some nm) :
    (end_parse_function clock i st).scope_events =
      pre ++ [ScopeEvent.mk nm ty ⟨sp.start, clock st.tick + 1⟩] ∧
    (end_parse_function clock i st).did_last_function_have_scope = true := by
  simp [end_parse_function, tickNow, hs, h0, h1, List.getLast?_concat,
    List.dropLast_concat]

theorem end_parse_function_scope_none (clock : Nat → Int) (st : TrackState)
    (i : FinishedFunction) (hs : i.scope_name = none) :
    (end_parse_function clock i st).scope_events = st.scope_events ∧
    (end_parse_function clock i st).did_last_function_have_scope = false := by
  simp [end_parse_function, tickNow, hs]

/-- C6: three consecutive parsed functions sharing the same enclosing scope
name, starting from a state with no scope history, produce exactly one
`ScopeEvent`, spanning one nanosecond before the first function span's
start to one nanosecond after the last function span's end; a subsequent
function with a different scope name starts a new record instead of
extending, and a function without a scope leaves the scope store untouched. -/
theorem claim_C6 (clock : Nat → Int) (st : TrackState) (nm : String)
    (i1 i2 i3 : FinishedFunction)
    (h0 : st.scope_events = []) (h1 : st.did_last_function_have_scope = false)
    (hs1 : i1.scope_name = some nm) (hs2 : i2.scope_name = some nm)
    (hs3 : i3.scope_name = some nm) :
    let st3 := end_parse_function clock i3 (end_parse_function clock i2
      (end_parse_function clock i1 st))
    st3.scope_events = [ScopeEvent.mk nm i1.scope_type
      ⟨st.last_function_parsed_ts + 3 - 1, clock (st.tick + 2) + 1⟩] ∧
    st3.function_events = st.function_events ++
      [FunctionEvent.mk i1.name i1.file_name
        ⟨st.last_function_parsed_ts + 3, clock st.tick⟩,
       FunctionEvent.mk i2.name i2.file_name
        ⟨clock st.tick + 3, clock (st.tick + 1)⟩,
       FunctionEvent.mk i3.name i3.file_name
        ⟨clock (st.tick + 1) + 3, clock (st.tick + 2)⟩] ∧
    (∀ i4 nm4, i4.scope_name = some nm4 → nm4 ≠ nm →
      (end_parse_function clock i4 st3).scope_events =
        st3.scope_events ++ [ScopeEvent.mk nm4 i4.scope_type
          ⟨st3.last_function_parsed_ts + 3 - 1, clock st3.tick + 1⟩]) ∧
    (∀ i4, i4.scope_name = none →
      (end_parse_function clock i4 st3).scope_events = st3.scope_events) := by
  intro st3
  obtain ⟨ht1, hl1, hf1⟩ := end_parse_function_proj clock i1 st
  obtain ⟨hsc1, hd1⟩ := end_parse_function_scope_fresh clock st i1 nm hs1 (Or.inl h1)
  rw [h0] at hsc1
  obtain ⟨ht2, hl2, hf2⟩ :=
    end_parse_function_proj clock i2 (end_parse_function clock i1 st)
  obtain ⟨hsc2, hd2⟩ := end_parse_function_scope_extend clock
    (end_parse_function clock i1 st) i2 nm i1.scope_type
    ⟨st.last_function_parsed_ts + 3 - 1, clock st.tick + 1⟩ [] hsc1 hd1 hs2
  rw [ht1] at hsc2 ht2 hl2
  obtain ⟨ht3, hl3, hf3⟩ := end_parse_function_proj clock i3
    (end_parse_function clock i2 (end_parse_function clock i1 st))
  obtain ⟨hsc3, hd3⟩ := end_parse_function_scope_extend clock
    (end_parse_function clock i2 (end_parse_function clock i1 st)) i3 nm
    i1.scope_type ⟨st.last_function_parsed_ts + 3 - 1, clock (st.tick + 1) + 1⟩ []
    hsc2 hd2 hs3
  rw [ht2] at hsc3 ht3 hl3
  have hscope : st3.scope_events = [ScopeEvent.mk nm i1.scope_type
      ⟨st.last_function_parsed_ts + 3 - 1, clock (st.tick + 2) + 1⟩] := by
    rw [show st3.scope_events = (end_parse_function clock i3
      (end_parse_function clock i2 (end_parse_function clock i1 st))).scope_events
      from rfl, hsc3]
    rfl
  refine ⟨hscope, ?_, ?_, ?_⟩
  · rw [show st3.function_events = (end_parse_function clock i3
      (end_parse_function clock i2 (end_parse_function clock i1 st))).function_events
      from rfl, hf3, hl2, ht2, hf2, hl1, ht1, hf1]
    simp [List.append_assoc]
  · intro i4 nm4 hs4 hne4
    exact (end_parse_function_scope_fresh clock st3 i4 nm4 hs4
      (Or.inr (by
        intro lastSc hlast
        rw [hscope] at hlast
        simp at hlast
        rw [← hlast]
        exact fun hc => hne4 hc.symm))).1
  · intro i4 hs4
    exact (end_parse_function_scope_none clock st3 i4 hs4).1

/-- Witness for C6: three functions in namespace "NS" under the identity
clock coalesce into the single scope record spanning 2 ns to 3 ns. -/
theorem claim_C6_witness :
    (end_parse_function idClock
      (FinishedFunction.mk "f3" "a.c" (some "NS") EventCategory.NAMESPACE)
      (end_parse_function idClock
        (FinishedFunction.mk "f2" "a.c" (some "NS") EventCategory.NAMESPACE)
        (end_parse_function idClock
          (FinishedFunction.mk "f1" "a.c" (some "NS") EventCategory.NAMESPACE)
          initState))).scope_events =
      [ScopeEvent.mk "NS" EventCategory.NAMESPACE ⟨2, 3⟩] := by
  have h := claim_C6 idClock initState "NS"
    (FinishedFunction.mk "f1" "a.c" (some "NS") EventCategory.NAMESPACE)
    (FinishedFunction.mk "f2" "a.c" (some "NS") EventCategory.NAMESPACE)
    (FinishedFunction.mk "f3" "a.c" (some "NS") EventCategory.NAMESPACE)
    rfl rfl rfl rfl rfl
  exact h.1.trans (by decide)

/-! ### Stage bookkeeping: the pending pass is never flushed (claim C2) -/

theorem start_opt_pass_pending (clock : Nat → Int) (p : OptPass)
    (st : TrackState) : (start_opt_pass clock p st).last_pass.pass = some p := by
  cases h : st.last_pass.pass <;> simp [start_opt_pass, tickNow, h]

theorem start_opt_pass_events_len (clock : Nat → Int) (p : OptPass)
    (st : TrackState) (q : OptPass) (h : st.last_pass.pass = some q) :
    (start_opt_pass clock p st).pass_events.length = st.pass_events.length + 1 := by
  simp [start_opt_pass, tickNow, h]

theorem run_optPasses_count (clock : Nat → Int) (ps : List OptPass) :
    ∀ st : TrackState, st.last_pass.pass.isSome = true →
      (run clock (ps.map Callback.optPass) st).pass_events.length =
        st.pass_events.length + ps.length ∧
      (run clock (ps.map Callback.optPass) st).last_pass.pass.isSome = true := by
  induction ps with
  | nil => intro st h; exact ⟨rfl, h⟩
  | cons p rest ih =>
    intro st h
    rcases Option.isSome_iff_exists.1 h with ⟨q, hq⟩
    have hstep : (step clock (Callback.optPass p) st).pass_events.length =
        st.pass_events.length + 1 := start_opt_pass_events_len clock p st q hq
    have hpend : (step clock (Callback.optPass p) st).last_pass.pass = some p :=
      start_opt_pass_pending clock p st
    have := ih (step clock (Callback.optPass p) st) (by rw [hpend]; rfl)
    refine ⟨?_, this.2⟩
    calc (run clock ((p :: rest).map Callback.optPass) st).pass_events.length
        = (run clock (rest.map Callback.optPass)
            (step clock (Callback.optPass p) st)).pass_events.length := rfl
      _ = (step clock (Callback.optPass p) st).pass_events.length + rest.length :=
          this.1
      _ = st.pass_events.length + (rest.length + 1) := by rw [hstep]; omega
      _ = st.pass_events.length + (p :: rest).length := by simp

theorem run_optPasses_last (clock : Nat → Int) (ps : List OptPass) :
    ∀ (st : TrackState) (q : OptPass), st.last_pass.pass = some q →
      (run clock (ps.map Callback.optPass) st).last_pass.pass =
        some (ps.getLast?.getD q) := by
  induction ps with
  | nil => intro st q h; exact h
  | cons p rest ih =>
    intro st q h
    have hpend : (step clock (Callback.optPass p) st).last_pass.pass = some p :=
      start_opt_pass_pending clock p st
    have hrest := ih (step clock (Callback.optPass p) st) p hpend
    calc (run clock ((p :: rest).map Callback.optPass) st).last_pass.pass
        = (run clock (rest.map Callback.optPass)
            (step clock (Callback.optPass p) st)).last_pass.pass := rfl
      _ = some (rest.getLast?.getD p) := hrest
      _ = some ((p :: rest).getLast?.getD q) := by simp [List.getLast?_cons]

theorem end_preprocess_file_pass_frame (clock : Nat → Int) (s : TrackState) :
    (end_preprocess_file clock s).pass_events = s.pass_events ∧
    (end_preprocess_file clock s).last_pass = s.last_pass := by
  cases hstk : s.preprocessing_stack with
  | nil => simp [end_preprocess_file, tickNow, hstk]
  | cons top rest =>
    by_cases he : (s.preprocess_end.lookup top).isSome = true
    · simp [end_preprocess_file, tickNow, hstk, he]
    · simp [end_preprocess_file, tickNow, hstk, he]

theorem finish_aux_pass_frame (clock : Nat → Int) :
    ∀ (n : Nat) (s : TrackState),
      (finish_aux clock n s).pass_events = s.pass_events ∧
      (finish_aux clock n s).last_pass = s.last_pass := by
  intro n
  induction n with
  | zero => intro s; exact ⟨rfl, rfl⟩
  | succ m ih =>
    intro s
    rw [finish_aux]
    by_cases hs : s.preprocessing_stack.isEmpty
    · simp [hs]
    · simp only [hs, Bool.false_eq_true, if_false, tickNow]
      have hepf := end_preprocess_file_pass_frame clock s
      have hrest := ih { end_preprocess_file clock s with
        last_function_parsed_ts := clock (end_preprocess_file clock s).tick,
        tick := (end_preprocess_file clock s).tick + 1 }
      exact ⟨hrest.1.trans hepf.1, hrest.2.trans hepf.2⟩

/-- The tracking state returned by `write_all_events` is exactly the
post-flush preprocessing state: the function only reads everything else. -/
theorem write_all_events_fst (clock : Nat → Int) (pid : Int) (st : TrackState)
    (es : EmitState) :
    (write_all_events clock pid st es).1 =
      finish_preprocessing_stage clock { st with tick := st.tick + 1 } := by
  simp only [write_all_events, write_preprocessing_events, tickNow]
  split <;> rfl

/-- `write_all_events` leaves the stage store and the pending stage cell
untouched: nothing in the emission step flushes `last_pass`. -/
theorem write_all_events_pass_frame (clock : Nat → Int) (pid : Int)
    (st : TrackState) (es : EmitState) :
    (write_all_events clock pid st es).1.pass_events = st.pass_events ∧
    (write_all_events clock pid st es).1.last_pass = st.last_pass := by
  rw [write_all_events_fst]
  unfold finish_preprocessing_stage
  exact ⟨(finish_aux_pass_frame clock _ _).1, (finish_aux_pass_frame clock _ _).2⟩

/-- C2 counterexample: after a single `start_opt_pass` call, the emission
step leaves `pass_events` empty — the pending stage is never flushed into
history, so zero (not one) stage records reach the stage-event writer. -/
theorem claim_C2_counterexample :
    let st := run idClock
      [Callback.optPass (OptPass.mk "inline" OptPassType.GIMPLE 3)] initState
    st.last_pass.pass = some (OptPass.mk "inline" OptPassType.GIMPLE 3) ∧
    write_opt_pass_events st = [] ∧
    (write_all_events idClock 7 st initEmit).1.pass_events = [] ∧
    (write_all_events idClock 7 st initEmit).1.last_pass.pass =
      some (OptPass.mk "inline" OptPassType.GIMPLE 3) ∧
    (write_all_events idClock 7 st initEmit).2 = some initEmit := by
  exact ⟨rfl, rfl, rfl, rfl, rfl⟩

/-- C2 amended: if `start_opt_pass` was called `n >= 1` times, only the
`n - 1` completed stages are in history and reach the stage-event writer;
the final stage stays pending in `last_pass` and `write_all_events` never
flushes it (the emission step leaves the stage store and the pending cell
untouched). -/
theorem claim_C2_amended (clock : Nat → Int) (pid : Int) (st0 : TrackState)
    (es : EmitState) (ps : List OptPass) (h : ps ≠ []) :
    let st := run clock (ps.map Callback.optPass) initState
    st.pass_events.length = ps.length - 1 ∧
    (write_opt_pass_events st).length = ps.length - 1 ∧
    st.last_pass.pass = some (ps.getLast h) ∧
    (write_all_events clock pid st0 es).1.pass_events = st0.pass_events ∧
    (write_all_events clock pid st0 es).1.last_pass = st0.last_pass := by
  intro st
  obtain ⟨p, rest, rfl⟩ : ∃ p rest, ps = p :: rest := by
    cases ps with
    | nil => exact absurd rfl h
    | cons a b => exact ⟨a, b, rfl⟩
  have hpend1 : (step clock (Callback.optPass p) initState).last_pass.pass = some p :=
    start_opt_pass_pending clock p initState
  have hev1 : (step clock (Callback.optPass p) initState).pass_events = [] := rfl
  have hcount := run_optPasses_count clock rest
    (step clock (Callback.optPass p) initState) (by rw [hpend1]; rfl)
  have hlast := run_optPasses_last clock rest
    (step clock (Callback.optPass p) initState) p hpend1
  have hlen : st.pass_events.length = rest.length := by
    have : st.pass_events.length =
        (step clock (Callback.optPass p) initState).pass_events.length +
          rest.length := hcount.1
    rw [hev1] at this
    simpa using this
  refine ⟨by simpa using hlen, ?_, ?_, (write_all_events_pass_frame clock pid st0 es).1,
    (write_all_events_pass_frame clock pid st0 es).2⟩
  · rw [write_opt_pass_events, List.length_map]
    simpa using hlen
  · rw [show st.last_pass.pass = some (rest.getLast?.getD p) from hlast,
      show (p :: rest).getLast h = (p :: rest).getLast?.getD p from by
        rw [List.getLast?_eq_getLast_of_ne_nil h]; rfl,
      List.getLast?_cons]
    rfl

/-- Witness for C2 amended, at two passes under the identity clock. -/
theorem claim_C2_amended_witness :
    (run idClock [Callback.optPass (OptPass.mk "a" OptPassType.GIMPLE 1),
      Callback.optPass (OptPass.mk "b" OptPassType.RTL 2)] initState).pass_events.length
      = 1 ∧
    (run idClock [Callback.optPass (OptPass.mk "a" OptPassType.GIMPLE 1),
      Callback.optPass (OptPass.mk "b" OptPassType.RTL 2)] initState).last_pass.pass
      = some (OptPass.mk "b" OptPassType.RTL 2) := by
  have h := claim_C2_amended idClock 7 initState initEmit
    [OptPass.mk "a" OptPassType.GIMPLE 1, OptPass.mk "b" OptPassType.RTL 2]
    (by decide)
  exact ⟨h.1, h.2.2.1⟩

/-! ### The span invariant (claim C1) -/

/-- Everything the spans stored by the tracker satisfy along a run with a
strictly monotone clock: inclusion starts are in the past, closed inclusion
ends dominate their starts, stacked files have start entries, the pending
stage start is in the past, stage history spans are well-formed and
adjacent with exactly one nanosecond of separation, and function spans are
strictly ordered with the last one below the boundary timestamp. -/
structure SpanInv (clock : Nat → Int) (st : TrackState) : Prop where
  start_le : ∀ q ∈ st.preprocess_start, q.2 ≤ clock st.tick
  end_closed : ∀ q ∈ st.preprocess_end,
    ∃ s, st.preprocess_start.lookup q.1 = some s ∧ s ≤ q.2
  stack_started : ∀ f ∈ st.preprocessing_stack,
    (st.preprocess_start.lookup f).isSome = true
  pend_le : st.last_pass.pass.isSome = true →
    st.last_pass.ts.start ≤ clock st.tick
  pend_none : st.last_pass.pass = none → st.pass_events = []
  hist_le : ∀ e ∈ st.pass_events, e.ts.start ≤ e.ts.stop
  hist_chain : st.pass_events.Chain' (fun a b => b.ts.start = a.ts.stop + 1)
  hist_pend : ∀ e, st.pass_events.getLast? = some e →
    st.last_pass.ts.start = e.ts.stop + 1
  fn_chain : st.function_events.Chain' (fun a b => a.ts.stop < b.ts.start)
  fn_last : ∀ e, st.function_events.getLast? = some e →
    e.ts.stop ≤ st.last_function_parsed_ts ∧ e.ts.stop ≤ clock st.tick

theorem clock_succ_le {clock : Nat → Int} (hmono : StrictMono clock) (t : Nat) :
    clock t + 1 ≤ clock (t + 1) :=
  Int.add_one_le_iff.2 (hmono (Nat.lt_succ_self t))

theorem SpanInv.tick_succ {clock : Nat → Int} (hmono : StrictMono clock)
    {st : TrackState} (h : SpanInv clock st) :
    SpanInv clock { st with tick := st.tick + 1 } where
  start_le q hq := le_trans (h.start_le q hq) (le_of_lt (hmono (Nat.lt_succ_self _)))
  end_closed := h.end_closed
  stack_started := h.stack_started
  pend_le hp := le_trans (h.pend_le hp) (le_of_lt (hmono (Nat.lt_succ_self _)))
  pend_none := h.pend_none
  hist_le := h.hist_le
  hist_chain := h.hist_chain
  hist_pend := h.hist_pend
  fn_chain := h.fn_chain
  fn_last e he := ⟨(h.fn_last e he).1,
    le_trans ((h.fn_last e he).2) (le_of_lt (hmono (Nat.lt_succ_self _)))⟩

/-- The `last_function_parsed_ts = ns_from_start()` assignment in the flush
loop preserves the invariant. -/
theorem SpanInv.set_boundary_now {clock : Nat → Int} (hmono : StrictMono clock)
    {st : TrackState} (h : SpanInv clock st) :
    SpanInv clock { st with
      last_function_parsed_ts := clock st.tick
      tick := st.tick + 1 } where
  start_le q hq := le_trans (h.start_le q hq) (le_of_lt (hmono (Nat.lt_succ_self _)))
  end_closed := h.end_closed
  stack_started := h.stack_started
  pend_le hp := le_trans (h.pend_le hp) (le_of_lt (hmono (Nat.lt_succ_self _)))
  pend_none := h.pend_none
  hist_le := h.hist_le
  hist_chain := h.hist_chain
  hist_pend := h.hist_pend
  fn_chain := h.fn_chain
  fn_last e he := ⟨(h.fn_last e he).2,
    le_trans ((h.fn_last e he).2) (le_of_lt (hmono (Nat.lt_succ_self _)))⟩

theorem SpanInv_start_preprocess_file {clock : Nat → Int}
    (hmono : StrictMono clock) (f : Option String) (p : Option PFileInfo)
    (st : TrackState) (h : SpanInv clock st) :
    SpanInv clock (start_preprocess_file clock f p st) := by
  cases f with
  | none =>
    rw [start_preprocess_file_filtered clock p st none (Or.inl rfl)]
    exact h.tick_succ hmono
  | some fname0 =>
    by_cases h1 : fname0 = "<command-line>"
    · rw [h1, start_preprocess_file_filtered clock p st (some "<command-line>")
        (Or.inr rfl)]
      exact h.tick_succ hmono
    · obtain ⟨hps, hstk⟩ := start_preprocess_file_start_stack clock fname0 p st h1
      obtain ⟨hpe, hlf, hlp, hpevs, hfev, htick⟩ :=
        start_preprocess_file_frame clock fname0 p st h1
      constructor
      · intro q hq
        rw [hps] at hq
        rw [htick]
        by_cases hl : (st.preprocess_start.lookup (spfName st fname0)).isSome = true
        · rw [if_pos hl] at hq
          exact le_trans (h.start_le q hq) (le_of_lt (hmono (Nat.lt_succ_self _)))
        · rw [if_neg hl] at hq
          rcases List.mem_append.1 hq with hq | hq
          · exact le_trans (h.start_le q hq) (le_of_lt (hmono (Nat.lt_succ_self _)))
          · rcases List.mem_singleton.1 hq with rfl
            exact le_of_lt (hmono (Nat.lt_succ_self _))
      · intro q hq
        rw [hpe] at hq
        rw [hps]
        rcases h.end_closed q hq with ⟨s, hlook, hle⟩
        by_cases hl : (st.preprocess_start.lookup (spfName st fname0)).isSome = true
        · rw [if_pos hl]
          exact ⟨s, hlook, hle⟩
        · rw [if_neg hl]
          exact ⟨s, lookup_append_some _ hlook, hle⟩
      · intro f2 hf2
        rw [hstk] at hf2
        rw [hps]
        by_cases hl : (st.preprocess_start.lookup (spfName st fname0)).isSome = true
        · rw [if_pos hl]
          rcases List.mem_cons.1 hf2 with rfl | hf2
          · exact hl
          · exact h.stack_started f2 hf2
        · rw [if_neg hl]
          rcases List.mem_cons.1 hf2 with rfl | hf2
          · rw [lookup_append_none _ (Option.not_isSome_iff_eq_none.1 hl),
              lookup_cons_self]
            rfl
          · exact lookup_isSome_append _ (h.stack_started f2 hf2)
      · rw [hlp, htick]
        intro hp
        exact le_trans (h.pend_le hp) (le_of_lt (hmono (Nat.lt_succ_self _)))
      · rw [hlp, hpevs]; exact h.pend_none
      · rw [hpevs]; exact h.hist_le
      · rw [hpevs]; exact h.hist_chain
      · rw [hpevs, hlp]; exact h.hist_pend
      · rw [hfev]; exact h.fn_chain
      · rw [hfev, hlf, htick]
        intro e he
        exact ⟨(h.fn_last e he).1,
          le_trans ((h.fn_last e he).2) (le_of_lt (hmono (Nat.lt_succ_self _)))⟩

theorem SpanInv_end_preprocess_file {clock : Nat → Int}
    (hmono : StrictMono clock) (st : TrackState) (h : SpanInv clock st) :
    SpanInv clock (end_preprocess_file clock st) := by
  cases hstk : st.preprocessing_stack with
  | nil =>
    rw [end_preprocess_file_empty clock st hstk]
    exact h.tick_succ hmono
  | cons top rest =>
    rw [end_preprocess_file_cases clock st top rest hstk]
    constructor
    · intro q hq
      exact le_trans (h.start_le q hq) (le_of_lt (hmono (Nat.lt_succ_self _)))
    · intro q hq
      by_cases he : (st.preprocess_end.lookup top).isSome = true
      · rw [if_pos he] at hq
        exact h.end_closed q hq
      · rw [if_neg he] at hq
        rcases List.mem_append.1 hq with hq | hq
        · exact h.end_closed q hq
        · rcases List.mem_singleton.1 hq with rfl
          have htop : (st.preprocess_start.lookup top).isSome = true :=
            h.stack_started top (by rw [hstk]; exact List.mem_cons_self _ _)
          rcases Option.isSome_iff_exists.1 htop with ⟨s, hs⟩
          exact ⟨s, hs, h.start_le (top, s) (lookup_mem hs)⟩
    · intro f2 hf2
      exact h.stack_started f2 (by rw [hstk]; exact List.mem_cons_of_mem _ hf2)
    · intro hp
      exact le_trans (h.pend_le hp) (le_of_lt (hmono (Nat.lt_succ_self _)))
    · exact h.pend_none
    · exact h.hist_le
    · exact h.hist_chain
    · exact h.hist_pend
    · exact h.fn_chain
    · intro e he
      constructor
      · show e.ts.stop ≤ clock st.tick + 3
        have := (h.fn_last e he).2
        omega
      · exact le_trans ((h.fn_last e he).2) (le_of_lt (hmono (Nat.lt_succ_self _)))

theorem SpanInv_finish_aux {clock : Nat → Int} (hmono : StrictMono clock) :
    ∀ (n : Nat) (s : TrackState), SpanInv clock s →
      SpanInv clock (finish_aux clock n s) := by
  intro n
  induction n with
  | zero => intro s h; exact h
  | succ m ih =>
    intro s h
    rw [finish_aux]
    by_cases hs : s.preprocessing_stack.isEmpty
    · simp only [hs, if_true]; exact h
    · simp only [hs, Bool.false_eq_true, if_false, tickNow]
      exact ih _ ((SpanInv_end_preprocess_file hmono s h).set_boundary_now hmono)

theorem SpanInv_start_opt_pass {clock : Nat → Int} (hmono : StrictMono clock)
    (p : OptPass) (st : TrackState) (h : SpanInv clock st) :
    SpanInv clock (start_opt_pass clock p st) := by
  cases hlp : st.last_pass.pass with
  | none =>
    have heq : start_opt_pass clock p st = { st with
        last_pass := ⟨some p, ⟨clock st.tick + 1, clock st.tick⟩⟩
        tick := st.tick + 1 } := by
      simp [start_opt_pass, tickNow, hlp]
    rw [heq]
    have hevs := h.pend_none hlp
    constructor
    · intro q hq
      exact le_trans (h.start_le q hq) (le_of_lt (hmono (Nat.lt_succ_self _)))
    · exact h.end_closed
    · exact h.stack_started
    · intro _
      exact clock_succ_le hmono st.tick
    · intro hco; exact Option.noConfusion hco
    · exact h.hist_le
    · exact h.hist_chain
    · intro e he
      rw [show ({ st with
          last_pass := ⟨some p, ⟨clock st.tick + 1, clock st.tick⟩⟩
          tick := st.tick + 1 } : TrackState).pass_events = st.pass_events
        from rfl, hevs] at he
      exact Option.noConfusion he
    · exact h.fn_chain
    · intro e he
      exact ⟨(h.fn_last e he).1,
        le_trans ((h.fn_last e he).2) (le_of_lt (hmono (Nat.lt_succ_self _)))⟩
  | some q =>
    have heq : start_opt_pass clock p st = { st with
        pass_events := st.pass_events ++
          [OptPassEvent.mk q ⟨st.last_pass.ts.start, clock st.tick⟩]
        last_pass := ⟨some p, ⟨clock st.tick + 1, clock st.tick⟩⟩
        tick := st.tick + 1 } := by
      simp [start_opt_pass, tickNow, hlp]
    rw [heq]
    have hpendle : st.last_pass.ts.start ≤ clock st.tick :=
      h.pend_le (by rw [hlp]; rfl)
    constructor
    · intro r hr
      exact le_trans (h.start_le r hr) (le_of_lt (hmono (Nat.lt_succ_self _)))
    · exact h.end_closed
    · exact h.stack_started
    · intro _
      exact clock_succ_le hmono st.tick
    · intro hco; exact Option.noConfusion hco
    · intro e he
      rcases List.mem_append.1 he with he | he
      · exact h.hist_le e he
      · rcases List.mem_singleton.1 he with rfl
        exact hpendle
    · refine List.Chain'.append h.hist_chain (List.chain'_singleton _) ?_
      intro x hx y hy
      rcases List.mem_singleton.1 (List.mem_of_mem_head? hy) with rfl
      exact h.hist_pend x hx
    · intro e he
      rw [show ({ st with
          pass_events := st.pass_events ++
            [OptPassEvent.mk q ⟨st.last_pass.ts.start, clock st.tick⟩]
          last_pass := ⟨some p, ⟨clock st.tick + 1, clock st.tick⟩⟩
          tick := st.tick + 1 } : TrackState).pass_events = st.pass_events ++
            [OptPassEvent.mk q ⟨st.last_pass.ts.start, clock st.tick⟩]
        from rfl, List.getLast?_concat] at he
      rcases Option.some.inj he with rfl
      rfl
    · exact h.fn_chain
    · intro e he
      exact ⟨(h.fn_last e he).1,
        le_trans ((h.fn_last e he).2) (le_of_lt (hmono (Nat.lt_succ_self _)))⟩

theorem SpanInv_end_parse_function {clock : Nat → Int} (hmono : StrictMono clock)
    (i : FinishedFunction) (st : TrackState) (h : SpanInv clock st) :
    SpanInv clock (end_parse_function clock i st) := by
  obtain ⟨hps, hpe, hstk, hlp, hpevs⟩ := end_parse_function_frame clock i st
  obtain ⟨htick, hlf, hfev⟩ := end_parse_function_proj clock i st
  constructor
  · intro q hq
    rw [hps] at hq
    rw [htick]
    exact le_trans (h.start_le q hq) (le_of_lt (hmono (Nat.lt_succ_self _)))
  · intro q hq
    rw [hpe] at hq
    rw [hps]
    exact h.end_closed q hq
  · intro f hf
    rw [hstk] at hf
    rw [hps]
    exact h.stack_started f hf
  · rw [hlp, htick]
    intro hp
    exact le_trans (h.pend_le hp) (le_of_lt (hmono (Nat.lt_succ_self _)))
  · rw [hlp, hpevs]; exact h.pend_none
  · rw [hpevs]; exact h.hist_le
  · rw [hpevs]; exact h.hist_chain
  · rw [hpevs, hlp]; exact h.hist_pend
  · rw [hfev]
    refine List.Chain'.append h.fn_chain (List.chain'_singleton _) ?_
    intro x hx y hy
    rcases List.mem_singleton.1 (List.mem_of_mem_head? hy) with rfl
    have := (h.fn_last x hx).1
    show x.ts.stop < st.last_function_parsed_ts + 3
    omega
  · rw [hfev, hlf, htick]
    intro e he
    rw [List.getLast?_concat] at he
    rcases Option.some.inj he with rfl
    exact ⟨le_refl _, le_of_lt (hmono (Nat.lt_succ_self _))⟩

theorem SpanInv_init (clock : Nat → Int) : SpanInv clock initState where
  start_le q hq := by simp [initState] at hq
  end_closed q hq := by simp [initState] at hq
  stack_started f hf := by simp [initState] at hf
  pend_le hp := by simp [initState] at hp
  pend_none _ := rfl
  hist_le e he := by simp [initState] at he
  hist_chain := List.chain'_nil
  hist_pend e he := by simp [initState] at he
  fn_chain := List.chain'_nil
  fn_last e he := by simp [initState] at he

theorem SpanInv_step {clock : Nat → Int} (hmono : StrictMono clock)
    (c : Callback) (st : TrackState) (h : SpanInv clock st) :
    SpanInv clock (step clock c st) := by
  cases c with
  | enter f p => exact SpanInv_start_preprocess_file hmono f p st h
  | leave => exact SpanInv_end_preprocess_file hmono st h
  | finishDecl => exact SpanInv_finish_aux hmono _ st h
  | finishFn i => exact SpanInv_end_parse_function hmono i st h
  | optPass p => exact SpanInv_start_opt_pass hmono p st h

theorem SpanInv_run {clock : Nat → Int} (hmono : StrictMono clock) :
    ∀ (cbs : List Callback) (st : TrackState), SpanInv clock st →
      SpanInv clock (run clock cbs st) := by
  intro cbs
  induction cbs with
  | nil => intro st h; exact h
  | cons c rest ih =>
    intro st h
    exact ih (step clock c st) (SpanInv_step hmono c st h)

/-- C1 counterexample: under the strictly monotone identity clock, a single
parsed-function callback records the span `{3, 0}` — `end < start` — so the
universal `end >= start` over all recorded spans fails for function spans. -/
theorem claim_C1_counterexample :
    StrictMono idClock ∧
    ¬ (∀ e ∈ (run idClock [Callback.finishFn
        (FinishedFunction.mk "f" "a.c" none EventCategory.UNKNOWN)]
        initState).function_events, e.ts.start ≤ e.ts.stop) :=
  ⟨idClock_strictMono, by decide⟩

/-- C1 amended: along any callback sequence under a strictly monotone clock,
at emission time (after the flush) every closed inclusion span satisfies
`end >= start`, every stage-history span satisfies `end >= start`, and in
both sequential sources — the stage history and the function-record list —
each later span's start is strictly greater than the previous span's end;
function (and scope) spans themselves may have `end < start` when
consecutive callbacks are closer than the 3 ns pad, as the counterexample
shows. -/
theorem claim_C1_amended (clock : Nat → Int) (hmono : StrictMono clock)
    (cbs : List Callback) :
    let st := finish_preprocessing_stage clock (run clock cbs initState)
    (∀ f e, st.preprocess_end.lookup f = some e →
      ∃ s, st.preprocess_start.lookup f = some s ∧ s ≤ e) ∧
    (∀ ev ∈ st.pass_events, ev.ts.start ≤ ev.ts.stop) ∧
    st.pass_events.Chain' (fun a b => a.ts.stop < b.ts.start) ∧
    st.function_events.Chain' (fun a b => a.ts.stop < b.ts.start) := by
  intro st
  have hinv : SpanInv clock st :=
    SpanInv_finish_aux hmono _ _
      (SpanInv_run hmono cbs initState (SpanInv_init clock))
  refine ⟨?_, hinv.hist_le, ?_, hinv.fn_chain⟩
  · intro f e hlook
    exact hinv.end_closed (f, e) (lookup_mem hlook)
  · exact hinv.hist_chain.imp (fun hab => by omega)

/-- Witness for C1 amended on a concrete mixed sequence under the identity
clock. -/
theorem claim_C1_amended_witness :
    StrictMono idClock ∧
    (finish_preprocessing_stage idClock (run idClock
      [Callback.enter (some "x") none, Callback.leave,
       Callback.optPass (OptPass.mk "a" OptPassType.GIMPLE 1),
       Callback.optPass (OptPass.mk "b" OptPassType.RTL 2)]
      initState)).pass_events.Chain' (fun a b => a.ts.stop < b.ts.start) :=
  ⟨idClock_strictMono,
   (claim_C1_amended idClock idClock_strictMono
     [Callback.enter (some "x") none, Callback.leave,
      Callback.optPass (OptPass.mk "a" OptPassType.GIMPLE 1),
      Callback.optPass (OptPass.mk "b" OptPassType.RTL 2)]).2.2.1⟩

end GccTrace
